import Mathlib

/-
  Verification of the glTF-to-GLB converter (src/index.js).

  The converter is embedded shallowly:
  * bytes are lists of Nat (each < 256 where it matters),
  * the file system is an association list from URI to file bytes,
  * the glTF JSON document is a structure holding the fields the converter
    reads or writes (asset, buffers, bufferViews, images); JSON.stringify
    is modelled by an executable serializer with a fixed key order,
  * the two in-place mutation loops of convertGLTFToGLB are modelled as
    folds over the index range, threading an explicit state (document,
    binary chunk list, running total); the state also records, for each
    appended data segment, its (offset, length) pair so that alignment
    claims can be stated,
  * Buffer.writeUInt32LE throws when the value exceeds 2^32 - 1, so
    createGLB returns an Option and fails when the total length is not
    representable (the only write that can be out of range).
-/

namespace Gltf

/-- Bytes of a Node Buffer, as natural numbers. -/
abbrev Bytes := List Nat

/-- Padding needed to bring a length to a multiple of 4: the expression
`(4 - (totalSize % 4)) % 4` from src/index.js lines 74, 123, 168, 177. -/
def pad4 (n : Nat) : Nat := (4 - n % 4) % 4

/-- A length rounded up to the next multiple of 4. -/
def roundUp4 (n : Nat) : Nat := n + pad4 n

/-- Model of the JavaScript `s.startsWith(pre)`. -/
def strStartsWith (s pre : String) : Bool := s.data.take pre.data.length = pre.data

/-- ASCII lower-casing of one character, as used by `toLowerCase` on
file extensions. -/
def lowerChar (c : Char) : Char :=
  if 65 ≤ c.toNat ∧ c.toNat ≤ 90 then Char.ofNat (c.toNat + 32) else c

/-- ASCII lower-casing of a string. -/
def lowerStr (s : String) : String := String.mk (s.data.map lowerChar)

/-- Model of Node `path.extname`: the part of the basename from its last
dot, empty when there is no dot or the only dot starts the basename. -/
def extname (s : String) : String :=
  let b := (s.data.reverse.takeWhile (fun c => c ≠ '/')).reverse
  let tail := b.reverse.takeWhile (fun c => c ≠ '.')
  if tail.length + 1 < b.length then String.mk ('.' :: tail.reverse) else ""

/-- The MIME table of src/index.js lines 214-224: lower-case the
extension, look it up, default to application/octet-stream. -/
def getMimeType (extension : String) : String :=
  let e := lowerStr extension
  if e = ".jpg" then "image/jpeg"
  else if e = ".jpeg" then "image/jpeg"
  else if e = ".png" then "image/png"
  else if e = ".gif" then "image/gif"
  else if e = ".bmp" then "image/bmp"
  else if e = ".webp" then "image/webp"
  else "application/octet-stream"

/-- The external files reachable from the input folder: URI to bytes.
`fs.existsSync` and `fs.readFileSync` are both modelled by lookup. -/
abbrev FS := List (String × Bytes)

/-- Reading a file by URI: some bytes when the file exists, none when it
does not. -/
def FS.read (fs : FS) (name : String) : Option Bytes := fs.lookup name

/-- A glTF buffer entry: `{ uri?, byteLength }`. -/
structure GBuffer where
  uri : Option String
  byteLength : Nat
deriving Repr, DecidableEq

/-- A glTF bufferView entry: `{ buffer, byteOffset?, byteLength }`. -/
structure BufferView where
  buffer : Nat
  byteOffset : Option Nat
  byteLength : Nat
deriving Repr, DecidableEq

/-- A glTF image entry: `{ uri?, bufferView?, mimeType? }`. -/
structure Image where
  uri : Option String
  bufferView : Option Nat
  mimeType : Option String
deriving Repr, DecidableEq

/-- The asset object; only its version field matters to the converter. -/
structure Asset where
  version : Option String
deriving Repr, DecidableEq

/-- The glTF JSON document, restricted to the fields the converter reads
or writes; an absent field is `none`. -/
structure Document where
  asset : Option Asset
  buffers : Option (List GBuffer)
  bufferViews : Option (List BufferView)
  images : Option (List Image)
deriving Repr, DecidableEq

/-- UTF-8 encoding of one character. -/
def utf8Encode (c : Char) : Bytes :=
  let n := c.toNat
  if n < 128 then [n]
  else if n < 2048 then [192 + n / 64, 128 + n % 64]
  else if n < 65536 then [224 + n / 4096, 128 + n / 64 % 64, 128 + n % 64]
  else [240 + n / 262144, 128 + n / 4096 % 64, 128 + n / 64 % 64, 128 + n % 64]

/-- Lower-case hexadecimal digit, for JSON control-character escapes. -/
def hexDigit (n : Nat) : Char :=
  if n < 10 then Char.ofNat (48 + n) else Char.ofNat (87 + n)

/-- JSON.stringify escaping of one character inside a string literal. -/
def escapeChar (c : Char) : List Char :=
  if c = '"' then ['\\', '"']
  else if c = '\\' then ['\\', '\\']
  else if c.toNat = 8 then ['\\', 'b']
  else if c.toNat = 9 then ['\\', 't']
  else if c.toNat = 10 then ['\\', 'n']
  else if c.toNat = 12 then ['\\', 'f']
  else if c.toNat = 13 then ['\\', 'r']
  else if c.toNat < 32 then ['\\', 'u', '0', '0', hexDigit (c.toNat / 16), hexDigit (c.toNat % 16)]
  else [c]

/-- A JSON string literal, as UTF-8 bytes including the quotes. -/
def jsonString (s : String) : Bytes :=
  [34] ++ ((s.data.map escapeChar).flatten.map utf8Encode).flatten ++ [34]

/-- A JSON number literal for a natural number, as ASCII bytes. -/
def natBytes (n : Nat) : Bytes := (Nat.repr n).data.map Char.toNat

/-- One object member, `"key":value`. -/
def member (key : String) (v : Bytes) : Bytes := jsonString key ++ [58] ++ v

/-- Comma-separated concatenation of serialized items. -/
def commaJoin : List Bytes → Bytes
  | [] => []
  | [x] => x
  | x :: y :: xs => x ++ [44] ++ commaJoin (y :: xs)

/-- A JSON object from its serialized members. -/
def jsonObj (ms : List Bytes) : Bytes := [123] ++ commaJoin ms ++ [125]

/-- A JSON array from its serialized elements. -/
def jsonArr (xs : List Bytes) : Bytes := [91] ++ commaJoin xs ++ [93]

/-- Serialization of the asset object. -/
def serializeAsset (a : Asset) : Bytes :=
  jsonObj (match a.version with
    | some v => [member "version" (jsonString v)]
    | none => [])

/-- Serialization of a buffer entry. -/
def serializeBuffer (b : GBuffer) : Bytes :=
  jsonObj ((match b.uri with
    | some u => [member "uri" (jsonString u)]
    | none => []) ++ [member "byteLength" (natBytes b.byteLength)])

/-- Serialization of a bufferView entry. -/
def serializeBufferView (v : BufferView) : Bytes :=
  jsonObj ([member "buffer" (natBytes v.buffer)] ++
    (match v.byteOffset with
      | some o => [member "byteOffset" (natBytes o)]
      | none => []) ++
    [member "byteLength" (natBytes v.byteLength)])

/-- Serialization of an image entry. -/
def serializeImage (i : Image) : Bytes :=
  jsonObj ((match i.uri with
    | some u => [member "uri" (jsonString u)]
    | none => []) ++
    (match i.bufferView with
      | some b => [member "bufferView" (natBytes b)]
      | none => []) ++
    (match i.mimeType with
      | some m => [member "mimeType" (jsonString m)]
      | none => []))

/-- Model of `JSON.stringify(document)`: present fields in a fixed key
order (JSON.stringify keeps insertion order, which the claims never
depend on since both sides of every comparison use this serializer). -/
def serializeDocument (d : Document) : Bytes :=
  jsonObj ((match d.asset with
    | some a => [member "asset" (serializeAsset a)]
    | none => []) ++
    (match d.buffers with
      | some bs => [member "buffers" (jsonArr (bs.map serializeBuffer))]
      | none => []) ++
    (match d.bufferViews with
      | some vs => [member "bufferViews" (jsonArr (vs.map serializeBufferView))]
      | none => []) ++
    (match d.images with
      | some is => [member "images" (jsonArr (is.map serializeImage))]
      | none => []))

/-- Little-endian 32-bit encoding, the successful case of
`Buffer.writeUInt32LE` (which throws when the value is at least 2^32). -/
def u32le (n : Nat) : Bytes := [n % 256, n / 256 % 256, n / 65536 % 256, n / 16777216 % 256]

/-- Lines 159-161 of createGLB: supply `asset = { version: "2.0" }` when
the document has no asset object at all (the check `!cleanGltf.asset` is
false for any present object, even an empty one). -/
def ensureAsset (d : Document) : Document :=
  if d.asset.isNone then { d with asset := some { version := some "2.0" } } else d

/-- createGLB (src/index.js lines 154-212): pad the serialized JSON with
spaces to a multiple of 4, pad the binary region with zeros to a multiple
of 4, and frame header, JSON chunk and (when non-empty) BIN chunk.
Returns none when the total length does not fit `writeUInt32LE`. -/
def createGLB (gltfData : Document) (binaryBuffer : Bytes) : Option Bytes :=
  let cleanGltf := ensureAsset gltfData
  let gltfBuffer := serializeDocument cleanGltf
  let jsonLength := gltfBuffer.length
  let jsonPadding := pad4 jsonLength
  let jsonChunkLength := jsonLength + jsonPadding
  let paddedJsonBuffer := gltfBuffer ++ List.replicate jsonPadding 32
  let binaryLength := binaryBuffer.length
  let binaryPadding := pad4 binaryLength
  let binaryChunkLength := binaryLength + binaryPadding
  let paddedBinaryBuffer := binaryBuffer ++ List.replicate binaryPadding 0
  let totalLength := 12 + (8 + jsonChunkLength) +
    (if 0 < binaryChunkLength then 8 + binaryChunkLength else 0)
  if totalLength < 4294967296 then
    some ((u32le 1179937895 ++ u32le 2 ++ u32le totalLength) ++
      (u32le jsonChunkLength ++ u32le 1313821514) ++ paddedJsonBuffer ++
      (if 0 < binaryChunkLength then
        (u32le binaryChunkLength ++ u32le 5130562) ++ paddedBinaryBuffer
      else []))
  else none

/-- The state threaded through the two collection loops of
convertGLTFToGLB: the mutated document copy, the list of pushed binary
chunks (data and padding), and the running total. The segs field is
instrumentation: the (byteOffset, byteLength) pair of every appended data
segment, recorded at the moment of its append. -/
structure St where
  doc : Document
  binaryChunks : List Bytes
  totalSize : Nat
  segs : List (Nat × Nat)
deriving Repr, DecidableEq

/-- The guard `uri && !uri.startsWith('data:')` followed by
`fs.existsSync`/`readFileSync`: the bytes that get embedded for an entry,
or none when the entry is skipped. -/
def bufLoad (fs : FS) (uri : Option String) : Option Bytes :=
  match uri with
  | some u => if strStartsWith u "data:" then none else FS.read fs u
  | none => none

/-- Lines 64-69: retarget every bufferView that points at buffer `i` to
buffer 0, adding the current running total to its byteOffset
(`byteOffset || 0` reads a missing offset as 0). -/
def patchViews (i : Nat) (total : Nat) (vs : List BufferView) : List BufferView :=
  vs.map (fun bv =>
    if bv.buffer = i then
      { buffer := 0, byteOffset := some (bv.byteOffset.getD 0 + total), byteLength := bv.byteLength }
    else bv)

/-- One iteration of the buffer loop (lines 54-84) at index `i`: when the
entry has a non-data URI naming an existing file, push its bytes, patch
the views that reference it, advance and pad the running total, and drop
the uri of entry `i`; otherwise leave the state unchanged. -/
def processOneBuffer (fs : FS) (st : St) (i : Nat) : St :=
  match (st.doc.buffers.getD [])[i]? with
  | none => st
  | some b =>
    match bufLoad fs b.uri with
    | none => st
    | some bufferData =>
      let chunks1 := st.binaryChunks ++ [bufferData]
      let doc1 := { st.doc with bufferViews := st.doc.bufferViews.map (patchViews i st.totalSize) }
      let total1 := st.totalSize + bufferData.length
      let padding := pad4 total1
      let chunks2 := if 0 < padding then chunks1 ++ [List.replicate padding 0] else chunks1
      let doc2 := { doc1 with buffers := doc1.buffers.map (fun bs => bs.set i { b with uri := none }) }
      { doc := doc2
        binaryChunks := chunks2
        totalSize := total1 + padding
        segs := st.segs ++ [(st.totalSize, bufferData.length)] }

/-- Lines 87-91: after the buffer loop, when the buffers array is
non-empty, replace it by the single entry `{ byteLength: totalSize }`. -/
def collapseBuffers (st : St) : St :=
  match st.doc.buffers with
  | some bufs1 =>
    if 0 < bufs1.length then
      { st with doc := { st.doc with buffers := some [{ uri := none, byteLength := st.totalSize }] } }
    else st
  | none => st

/-- The buffer loop plus the collapse of lines 87-91. When the document
has no buffers field the whole block (lines 53-92) is skipped. -/
def processBuffers (fs : FS) (st : St) : St :=
  match st.doc.buffers with
  | none => st
  | some bufs => collapseBuffers ((List.range bufs.length).foldl (processOneBuffer fs) st)

/-- One iteration of the image loop (lines 96-130) at index `i`: when the
image has a non-data URI naming an existing file, append a new bufferView
`{buffer: 0, byteOffset: totalSize, byteLength: size}` (creating the
bufferViews array when absent), rewrite the image to reference it with
the inferred MIME type and no uri, push the bytes, and advance and pad
the running total; otherwise leave the state unchanged. -/
def processOneImage (fs : FS) (st : St) (i : Nat) : St :=
  match (st.doc.images.getD [])[i]? with
  | none => st
  | some image =>
    match bufLoad fs image.uri with
    | none => st
    | some imageData =>
      let mimeType := getMimeType (extname (image.uri.getD ""))
      let views := st.doc.bufferViews.getD []
      let bufferViewIndex := views.length
      let views1 := views ++ [{ buffer := 0, byteOffset := some st.totalSize, byteLength := imageData.length }]
      let image1 : Image := { uri := none, bufferView := some bufferViewIndex, mimeType := some mimeType }
      let doc1 := { st.doc with
        bufferViews := some views1
        images := st.doc.images.map (fun imgs => imgs.set i image1) }
      let total1 := st.totalSize + imageData.length
      let padding := pad4 total1
      let chunks1 := st.binaryChunks ++ [imageData]
      let chunks2 := if 0 < padding then chunks1 ++ [List.replicate padding 0] else chunks1
      { doc := doc1
        binaryChunks := chunks2
        totalSize := total1 + padding
        segs := st.segs ++ [(st.totalSize, imageData.length)] }

/-- The image loop of lines 95-131; skipped when the document has no
images field. -/
def processImages (fs : FS) (st : St) : St :=
  match st.doc.images with
  | none => st
  | some imgs => (List.range imgs.length).foldl (processOneImage fs) st

/-- Lines 134-136: when a buffers array with at least one entry remains,
set the byteLength of entry 0 to the final running total. -/
def updateFinalBufferSize (st : St) : St :=
  match st.doc.buffers with
  | some (b :: bs) =>
    { st with doc := { st.doc with buffers := some ({ b with byteLength := st.totalSize } :: bs) } }
  | _ => st

/-- The deep copy `JSON.parse(JSON.stringify(x))` of line 45; on JSON
document values it is the identity. -/
def deepCopy (d : Document) : Document := d

/-- The initial collection state of lines 49-50. -/
def initSt (d : Document) : St :=
  { doc := d, binaryChunks := [], totalSize := 0, segs := [] }

/-- The state at the end of the collection and patching phase of
convertGLTFToGLB (lines 42-136), starting from a deep copy of the parsed
input. -/
def convertState (fs : FS) (d : Document) : St :=
  updateFinalBufferSize (processImages fs (processBuffers fs (initSt (deepCopy d))))

/-- Line 139: `Buffer.concat(binaryChunks)`. -/
def combinedBuffer (st : St) : Bytes := st.binaryChunks.flatten

/-- The whole conversion of one parsed document: collect and patch, then
frame with createGLB. -/
def convertGLTFToGLB (fs : FS) (d : Document) : Option Bytes :=
  createGLB (convertState fs d).doc (combinedBuffer (convertState fs d))

/-- convertGLTFToGLB including the callers view of its input: the parsed
`gltfData` is kept alongside the result, all patching being applied to
the deep copy taken on line 45. -/
def convertRun (fs : FS) (gltfData : Document) : Document × Option Bytes :=
  let modifiedGltf := deepCopy gltfData
  let st := updateFinalBufferSize (processImages fs (processBuffers fs (initSt modifiedGltf)))
  (gltfData, createGLB st.doc (combinedBuffer st))

/-- The length of the BIN chunk payload createGLB would emit for a given
binary region (the chunk itself is emitted only when this is positive). -/
def binChunkLengthOf (bin : Bytes) : Nat := bin.length + pad4 bin.length

/-- The state after the first `k` iterations of the buffer loop. -/
def bufferLoopState (fs : FS) (d : Document) (k : Nat) : St :=
  (List.range k).foldl (processOneBuffer fs) (initSt d)

/-- The state after the first `k` iterations of the image loop, which
starts from the state the buffer block leaves behind. -/
def imageLoopState (fs : FS) (d : Document) (k : Nat) : St :=
  (List.range k).foldl (processOneImage fs) (processBuffers fs (initSt d))

/-- The number of bytes read for an entry with the given uri (0 when the
entry is skipped). -/
def segLen (fs : FS) (uri : Option String) : Nat := ((bufLoad fs uri).getD []).length

/-- The contribution of one buffer entry to the running total: its file
size rounded up to a multiple of 4, or 0 when the entry is skipped. -/
def loadSize (fs : FS) (b : GBuffer) : Nat :=
  if (bufLoad fs b.uri).isSome then roundUp4 (segLen fs b.uri) else 0

/-- The running total contributed by a list of buffer entries. -/
def sumLoads (fs : FS) (bufs : List GBuffer) : Nat := (bufs.map (loadSize fs)).sum

/-- The segment chain property: starting from offset `s`, each recorded
segment starts where the previous one ends after its padding, and the
running total ends at `t`. -/
def chainOk : Nat → List (Nat × Nat) → Nat → Prop
  | s, [], t => t = s
  | s, (o, l) :: rest, t => o = s ∧ chainOk (o + roundUp4 l) rest t

/-- The basic collection invariant: the running total is 4-aligned, the
recorded segments chain from offset 0 up to the running total, and the
pushed chunks concatenate to exactly totalSize bytes. -/
def Inv4 (st : St) : Prop :=
  st.totalSize % 4 = 0 ∧ chainOk 0 st.segs st.totalSize ∧
    (combinedBuffer st).length = st.totalSize

/-- The JSON chunk payload createGLB emits for a document: the serialized
document padded with spaces to a multiple of 4. -/
def jsonChunkOf (d : Document) : Bytes :=
  serializeDocument (ensureAsset d) ++
    List.replicate (pad4 (serializeDocument (ensureAsset d)).length) 32

/-- The BIN chunk payload createGLB emits for a binary region: the region
padded with zeros to a multiple of 4. -/
def binChunkOf (bin : Bytes) : Bytes := bin ++ List.replicate (pad4 bin.length) 0

/-- The container layout of the GLB specification, written out flat: a
12-byte header (magic 0x46546C67, version 2, total length), the 8-byte
JSON chunk header (length, type 0x4E4F534A) and payload, and, only when
binary data exists, the 8-byte BIN chunk header (length, type 0x004E4942)
and payload, all little-endian 32-bit. -/
def glbLayout (d : Document) (bin : Bytes) : Bytes :=
  u32le 1179937895 ++ u32le 2 ++
    u32le (12 + (8 + (jsonChunkOf d).length) +
      (if 0 < (binChunkOf bin).length then 8 + (binChunkOf bin).length else 0)) ++
    u32le (jsonChunkOf d).length ++ u32le 1313821514 ++ jsonChunkOf d ++
    (if 0 < (binChunkOf bin).length then
      u32le (binChunkOf bin).length ++ u32le 5130562 ++ binChunkOf bin
    else [])

/-- The document delta the converter applies to an input whose buffers
and images are all data: URIs: a non-empty buffers array is still
collapsed to the single entry `{ byteLength: 0 }` (lines 87-91 run
regardless of whether any file was embedded); everything else is kept. -/
def dataOnlyPatch (d : Document) : Document :=
  match d.buffers with
  | some (_ :: _) => { d with buffers := some [{ uri := none, byteLength := 0 }] }
  | _ => d

/-- Example file system: a 10-byte geometry buffer and a 7-byte image. -/
def fsEx : FS := [("b.bin", List.replicate 10 7), ("i.png", List.replicate 7 9)]

/-- Example document: one external buffer, one view on it, one external
image (the worked example of the specification). -/
def docEx : Document :=
  { asset := some { version := some "2.0" }
    buffers := some [{ uri := some "b.bin", byteLength := 10 }]
    bufferViews := some [{ buffer := 0, byteOffset := some 0, byteLength := 10 }]
    images := some [{ uri := some "i.png", bufferView := none, mimeType := none }] }

/-- Example file system with two buffer files of 8 and 3 bytes. -/
def fsTwo : FS := [("a.bin", List.replicate 8 1), ("c.bin", List.replicate 3 2)]

/-- The buffer list of the two-buffer example. -/
def bufsTwo : List GBuffer :=
  [{ uri := some "a.bin", byteLength := 8 }, { uri := some "c.bin", byteLength := 3 }]

/-- Example document with two external buffers and a view on buffer 1
with byteOffset 5 (the retargeting example of the specification). -/
def docTwo : Document :=
  { asset := some { version := some "2.0" }
    buffers := some bufsTwo
    bufferViews := some [{ buffer := 1, byteOffset := some 5, byteLength := 3 }]
    images := none }

/-- Example document whose buffer and image files are all missing. -/
def docMissing : Document :=
  { asset := some { version := some "2.0" }
    buffers := some [{ uri := some "missing.bin", byteLength := 8 }]
    bufferViews := some [{ buffer := 0, byteOffset := some 4, byteLength := 4 }]
    images := some [{ uri := some "missing.png", bufferView := none, mimeType := none }] }

/-- Example document whose only buffer is a data: URI. -/
def docData : Document :=
  { asset := some { version := some "2.0" }
    buffers := some [{ uri := some "data:application/octet-stream;base64,AAAA", byteLength := 3 }]
    bufferViews := none
    images := none }

/-- Example document with no asset object at all. -/
def docAssetless : Document :=
  { asset := none, buffers := none, bufferViews := none, images := none }

/-- Example document whose asset object is present but has no version
field. -/
def docEmptyAsset : Document :=
  { asset := some { version := none }, buffers := none, bufferViews := none, images := none }

/-- Example document with no buffers array and one external image. -/
def docImageOnly : Document :=
  { asset := some { version := some "2.0" }
    buffers := none
    bufferViews := none
    images := some [{ uri := some "img.png", bufferView := none, mimeType := none }] }

/-- File system holding a 3-byte image file. -/
def fsImageOnly : FS := [("img.png", [5, 6, 7])]

/-- File system holding a 0-byte image file. -/
def fsImageEmpty : FS := [("img.png", [])]

/-- The container createGLB produces for the assetless document and a
3-byte binary region. -/
def outEx : Bytes := (createGLB docAssetless [1, 2, 3]).getD []

theorem pad4_eq_zero {n : Nat} (h : n % 4 = 0) : pad4 n = 0 := by
  unfold pad4; omega

theorem roundUp4_mod (n : Nat) : roundUp4 n % 4 = 0 := by
  unfold roundUp4 pad4; omega

theorem pad4_add_left {a : Nat} (b : Nat) (h : a % 4 = 0) : pad4 (a + b) = pad4 b := by
  unfold pad4; omega

theorem chainOk_append {s t : Nat} {segs : List (Nat × Nat)} (l : Nat)
    (h : chainOk s segs t) : chainOk s (segs ++ [(t, l)]) (t + roundUp4 l) := by
  induction segs generalizing s with
  | nil => simp only [chainOk] at h; subst h; exact ⟨rfl, rfl⟩
  | cons hd tl ih =>
    obtain ⟨o, len⟩ := hd
    exact ⟨h.1, ih h.2⟩

theorem chainOk_succ {s t : Nat} {segs : List (Nat × Nat)} (h : chainOk s segs t)
    (k : Nat) (hk : k + 1 < segs.length) :
    (segs.getD (k + 1) (0, 0)).1 =
      (segs.getD k (0, 0)).1 + roundUp4 (segs.getD k (0, 0)).2 := by
  induction segs generalizing s k with
  | nil => simp at hk
  | cons hd tl ih =>
    obtain ⟨o, len⟩ := hd
    cases k with
    | zero =>
      cases tl with
      | nil => simp at hk
      | cons hd2 tl2 =>
        obtain ⟨o2, len2⟩ := hd2
        simp only [List.getD_cons_succ, List.getD_cons_zero]
        exact h.2.1
    | succ k =>
      simp only [List.getD_cons_succ]
      exact ih h.2 k (by simpa using hk)

theorem chainOk_dvd {s t : Nat} {segs : List (Nat × Nat)} (h : chainOk s segs t)
    (hs : 4 ∣ s) (k : Nat) (hk : k < segs.length) : 4 ∣ (segs.getD k (0, 0)).1 := by
  induction segs generalizing s k with
  | nil => simp at hk
  | cons hd tl ih =>
    obtain ⟨o, len⟩ := hd
    cases k with
    | zero => simpa only [List.getD_cons_zero, h.1] using hs
    | succ k =>
      simp only [List.getD_cons_succ]
      exact ih h.2 (h.1 ▸ Dvd.dvd.add hs (Nat.dvd_of_mod_eq_zero (roundUp4_mod len)))
        k (by simpa using hk)

theorem inv4_processOneBuffer (fs : FS) (st : St) (i : Nat) (h : Inv4 st) :
    Inv4 (processOneBuffer fs st i) := by
  simp only [processOneBuffer]
  split
  · exact h
  split
  · exact h
  next bufferData _ =>
    obtain ⟨h1, h2, h3⟩ := h
    have key : st.totalSize + bufferData.length + pad4 (st.totalSize + bufferData.length) =
        st.totalSize + roundUp4 bufferData.length := by
      rw [pad4_add_left _ h1]; unfold roundUp4; omega
    refine ⟨?_, ?_, ?_⟩ <;> dsimp only [combinedBuffer]
    · rw [key]
      have := roundUp4_mod bufferData.length
      omega
    · rw [key]
      exact chainOk_append _ h2
    · simp only [combinedBuffer] at h3
      split
      · simp only [List.flatten_append, List.length_append, List.flatten_cons,
          List.flatten_nil, List.append_nil, List.length_replicate, h3]
      · simp only [List.flatten_append, List.length_append, List.flatten_cons,
          List.flatten_nil, List.append_nil, h3]
        omega

theorem inv4_processOneImage (fs : FS) (st : St) (i : Nat) (h : Inv4 st) :
    Inv4 (processOneImage fs st i) := by
  simp only [processOneImage]
  split
  · exact h
  split
  · exact h
  next imageData _ =>
    obtain ⟨h1, h2, h3⟩ := h
    have key : st.totalSize + imageData.length + pad4 (st.totalSize + imageData.length) =
        st.totalSize + roundUp4 imageData.length := by
      rw [pad4_add_left _ h1]; unfold roundUp4; omega
    refine ⟨?_, ?_, ?_⟩ <;> dsimp only [combinedBuffer]
    · rw [key]
      have := roundUp4_mod imageData.length
      omega
    · rw [key]
      exact chainOk_append _ h2
    · simp only [combinedBuffer] at h3
      split
      · simp only [List.flatten_append, List.length_append, List.flatten_cons,
          List.flatten_nil, List.append_nil, List.length_replicate, h3]
      · simp only [List.flatten_append, List.length_append, List.flatten_cons,
          List.flatten_nil, List.append_nil, h3]
        omega

theorem inv4_foldBuffers (fs : FS) (l : List Nat) (st : St) (h : Inv4 st) :
    Inv4 (l.foldl (processOneBuffer fs) st) := by
  induction l generalizing st with
  | nil => exact h
  | cons j tl ih => exact ih _ (inv4_processOneBuffer fs st j h)

theorem inv4_foldImages (fs : FS) (l : List Nat) (st : St) (h : Inv4 st) :
    Inv4 (l.foldl (processOneImage fs) st) := by
  induction l generalizing st with
  | nil => exact h
  | cons j tl ih => exact ih _ (inv4_processOneImage fs st j h)

theorem inv4_collapseBuffers (st : St) (h : Inv4 st) : Inv4 (collapseBuffers st) := by
  unfold collapseBuffers
  split
  · split
    · exact h
    · exact h
  · exact h

theorem inv4_updateFinalBufferSize (st : St) (h : Inv4 st) :
    Inv4 (updateFinalBufferSize st) := by
  unfold updateFinalBufferSize
  split
  · exact h
  · exact h

theorem inv4_processBuffers (fs : FS) (st : St) (h : Inv4 st) :
    Inv4 (processBuffers fs st) := by
  unfold processBuffers
  split
  · exact h
  · exact inv4_collapseBuffers _ (inv4_foldBuffers fs _ st h)

theorem inv4_processImages (fs : FS) (st : St) (h : Inv4 st) :
    Inv4 (processImages fs st) := by
  unfold processImages
  split
  · exact h
  · exact inv4_foldImages fs _ st h

theorem inv4_initSt (d : Document) : Inv4 (initSt d) :=
  ⟨rfl, rfl, rfl⟩

theorem inv4_convertState (fs : FS) (d : Document) : Inv4 (convertState fs d) :=
  inv4_updateFinalBufferSize _ (inv4_processImages fs _
    (inv4_processBuffers fs _ (inv4_initSt d)))

theorem images_processOneBuffer (fs : FS) (st : St) (i : Nat) :
    (processOneBuffer fs st i).doc.images = st.doc.images := by
  simp only [processOneBuffer]
  split
  · rfl
  split
  · rfl
  · rfl

theorem asset_processOneBuffer (fs : FS) (st : St) (i : Nat) :
    (processOneBuffer fs st i).doc.asset = st.doc.asset := by
  simp only [processOneBuffer]
  split
  · rfl
  split
  · rfl
  · rfl

theorem asset_processOneImage (fs : FS) (st : St) (i : Nat) :
    (processOneImage fs st i).doc.asset = st.doc.asset := by
  simp only [processOneImage]
  split
  · rfl
  split
  · rfl
  · rfl

theorem buffers_processOneImage (fs : FS) (st : St) (i : Nat) :
    (processOneImage fs st i).doc.buffers = st.doc.buffers := by
  simp only [processOneImage]
  split
  · rfl
  split
  · rfl
  · rfl

theorem images_foldBuffers (fs : FS) (l : List Nat) (st : St) :
    ((l.foldl (processOneBuffer fs) st)).doc.images = st.doc.images := by
  induction l generalizing st with
  | nil => rfl
  | cons j tl ih => rw [List.foldl_cons, ih, images_processOneBuffer]

theorem asset_foldBuffers (fs : FS) (l : List Nat) (st : St) :
    ((l.foldl (processOneBuffer fs) st)).doc.asset = st.doc.asset := by
  induction l generalizing st with
  | nil => rfl
  | cons j tl ih => rw [List.foldl_cons, ih, asset_processOneBuffer]

theorem asset_foldImages (fs : FS) (l : List Nat) (st : St) :
    ((l.foldl (processOneImage fs) st)).doc.asset = st.doc.asset := by
  induction l generalizing st with
  | nil => rfl
  | cons j tl ih => rw [List.foldl_cons, ih, asset_processOneImage]

theorem buffers_foldImages (fs : FS) (l : List Nat) (st : St) :
    ((l.foldl (processOneImage fs) st)).doc.buffers = st.doc.buffers := by
  induction l generalizing st with
  | nil => rfl
  | cons j tl ih => rw [List.foldl_cons, ih, buffers_processOneImage]

theorem images_collapseBuffers (st : St) :
    (collapseBuffers st).doc.images = st.doc.images := by
  unfold collapseBuffers
  split
  · split
    · rfl
    · rfl
  · rfl

theorem asset_collapseBuffers (st : St) :
    (collapseBuffers st).doc.asset = st.doc.asset := by
  unfold collapseBuffers
  split
  · split
    · rfl
    · rfl
  · rfl

theorem bufferViews_collapseBuffers (st : St) :
    (collapseBuffers st).doc.bufferViews = st.doc.bufferViews := by
  unfold collapseBuffers
  split
  · split
    · rfl
    · rfl
  · rfl

theorem totalSize_collapseBuffers (st : St) :
    (collapseBuffers st).totalSize = st.totalSize := by
  unfold collapseBuffers
  split
  · split
    · rfl
    · rfl
  · rfl

theorem segs_collapseBuffers (st : St) : (collapseBuffers st).segs = st.segs := by
  unfold collapseBuffers
  split
  · split
    · rfl
    · rfl
  · rfl

theorem binaryChunks_collapseBuffers (st : St) :
    (collapseBuffers st).binaryChunks = st.binaryChunks := by
  unfold collapseBuffers
  split
  · split
    · rfl
    · rfl
  · rfl

theorem images_processBuffers (fs : FS) (st : St) :
    (processBuffers fs st).doc.images = st.doc.images := by
  unfold processBuffers
  split
  · rfl
  · rw [images_collapseBuffers, images_foldBuffers]

theorem asset_processBuffers (fs : FS) (st : St) :
    (processBuffers fs st).doc.asset = st.doc.asset := by
  unfold processBuffers
  split
  · rfl
  · rw [asset_collapseBuffers, asset_foldBuffers]

theorem asset_processImages (fs : FS) (st : St) :
    (processImages fs st).doc.asset = st.doc.asset := by
  unfold processImages
  split
  · rfl
  · rw [asset_foldImages]

theorem buffers_processImages (fs : FS) (st : St) :
    (processImages fs st).doc.buffers = st.doc.buffers := by
  unfold processImages
  split
  · rfl
  · rw [buffers_foldImages]

theorem asset_updateFinalBufferSize (st : St) :
    (updateFinalBufferSize st).doc.asset = st.doc.asset := by
  unfold updateFinalBufferSize
  split
  · rfl
  · rfl

theorem images_updateFinalBufferSize (st : St) :
    (updateFinalBufferSize st).doc.images = st.doc.images := by
  unfold updateFinalBufferSize
  split
  · rfl
  · rfl

theorem bufferViews_updateFinalBufferSize (st : St) :
    (updateFinalBufferSize st).doc.bufferViews = st.doc.bufferViews := by
  unfold updateFinalBufferSize
  split
  · rfl
  · rfl

theorem totalSize_updateFinalBufferSize (st : St) :
    (updateFinalBufferSize st).totalSize = st.totalSize := by
  unfold updateFinalBufferSize
  split
  · rfl
  · rfl

theorem segs_updateFinalBufferSize (st : St) :
    (updateFinalBufferSize st).segs = st.segs := by
  unfold updateFinalBufferSize
  split
  · rfl
  · rfl

theorem binaryChunks_updateFinalBufferSize (st : St) :
    (updateFinalBufferSize st).binaryChunks = st.binaryChunks := by
  unfold updateFinalBufferSize
  split
  · rfl
  · rfl

theorem asset_convertState (fs : FS) (d : Document) :
    (convertState fs d).doc.asset = d.asset := by
  unfold convertState
  rw [asset_updateFinalBufferSize, asset_processImages, asset_processBuffers]
  rfl

theorem bufferLoopState_succ (fs : FS) (d : Document) (k : Nat) :
    bufferLoopState fs d (k + 1) = processOneBuffer fs (bufferLoopState fs d k) k := by
  unfold bufferLoopState
  rw [List.range_succ, List.foldl_append]
  rfl

theorem inv4_bufferLoopState (fs : FS) (d : Document) (k : Nat) :
    Inv4 (bufferLoopState fs d k) :=
  inv4_foldBuffers fs _ _ (inv4_initSt d)

theorem bufferLoopState_buffers (fs : FS) {d : Document} {bufs : List GBuffer}
    (hd : d.buffers = some bufs) (k : Nat) :
    ∃ bs, (bufferLoopState fs d k).doc.buffers = some bs ∧ bs.length = bufs.length ∧
      ∀ j, k ≤ j → bs[j]? = bufs[j]? := by
  induction k with
  | zero => exact ⟨bufs, hd, rfl, fun j _ => rfl⟩
  | succ k ih =>
    obtain ⟨bs, h1, h2, h3⟩ := ih
    rw [bufferLoopState_succ]
    simp only [processOneBuffer, h1, Option.getD_some]
    split
    · exact ⟨bs, h1, h2, fun j hj => h3 j (by omega)⟩
    next b heq =>
      split
      · exact ⟨bs, h1, h2, fun j hj => h3 j (by omega)⟩
      next data heq2 =>
        refine ⟨bs.set k { b with uri := none }, by simp, ?_, ?_⟩
        · simp [h2]
        · intro j hj
          rw [List.getElem?_set_ne (by omega)]
          exact h3 j (by omega)

theorem bufferLoopState_totalSize (fs : FS) {d : Document} {bufs : List GBuffer}
    (hd : d.buffers = some bufs) (k : Nat) :
    (bufferLoopState fs d k).totalSize = sumLoads fs (bufs.take k) := by
  induction k with
  | zero => rfl
  | succ k ih =>
    obtain ⟨bs, h1, h2, h3⟩ := bufferLoopState_buffers fs hd k
    have hmod := (inv4_bufferLoopState fs d k).1
    simp only [sumLoads] at ih
    rw [bufferLoopState_succ]
    simp only [processOneBuffer, h1, Option.getD_some, h3 k (le_refl k), sumLoads,
      List.take_succ, List.map_append, List.sum_append]
    split
    next heq => simp [heq, ih]
    next b heq =>
      split
      next heq2 =>
        simp [heq, Option.toList_some, loadSize, heq2, ih]
      next data heq2 =>
        have hload : loadSize fs b = roundUp4 data.length := by
          simp [loadSize, segLen, heq2]
        simp only [heq, Option.toList_some, List.map_cons, List.map_nil, List.sum_cons,
          List.sum_nil, hload]
        rw [pad4_add_left _ hmod, ih]
        unfold roundUp4
        omega

/-- C2: in the consolidated region, every data segment starts at a
multiple of 4, and segment k+1 starts at the offset of segment k plus
segment k's length rounded up to the next multiple of 4. -/
theorem segment_offsets_aligned_chain (fs : FS) (d : Document) (k : Nat)
    (hk : k < (convertState fs d).segs.length) :
    4 ∣ ((convertState fs d).segs.getD k (0, 0)).1 ∧
      (k + 1 < (convertState fs d).segs.length →
        ((convertState fs d).segs.getD (k + 1) (0, 0)).1 =
          ((convertState fs d).segs.getD k (0, 0)).1 +
            roundUp4 ((convertState fs d).segs.getD k (0, 0)).2) := by
  obtain ⟨h1, h2, h3⟩ := inv4_convertState fs d
  exact ⟨chainOk_dvd h2 (Dvd.intro 0 rfl) k hk, fun hk2 => chainOk_succ h2 k hk2⟩

/-- Witness for C2 at the two-buffer example: segment 0 sits at offset 0,
segment 1 at offset 0 + roundUp4 8 = 8. -/
theorem segment_offsets_aligned_chain_witness :
    0 < (convertState fsTwo docTwo).segs.length ∧
      (4 ∣ ((convertState fsTwo docTwo).segs.getD 0 (0, 0)).1 ∧
        (0 + 1 < (convertState fsTwo docTwo).segs.length →
          ((convertState fsTwo docTwo).segs.getD (0 + 1) (0, 0)).1 =
            ((convertState fsTwo docTwo).segs.getD 0 (0, 0)).1 +
              roundUp4 ((convertState fsTwo docTwo).segs.getD 0 (0, 0)).2)) :=
  ⟨by decide, segment_offsets_aligned_chain fsTwo docTwo 0 (by decide)⟩

theorem sumLoads_all (fs : FS) (bufs : List GBuffer)
    (hall : ∀ b ∈ bufs, (bufLoad fs b.uri).isSome) :
    sumLoads fs bufs =
      (bufs.map (fun b => segLen fs b.uri + pad4 (segLen fs b.uri))).sum := by
  unfold sumLoads
  congr 1
  apply List.map_congr_left
  intro b hb
  simp [loadSize, hall b hb, roundUp4]

theorem foldImages_noop (fs : FS) (st : St) (imgs : List Image)
    (hst : st.doc.images = some imgs)
    (himg : ∀ img ∈ imgs, bufLoad fs img.uri = none) (l : List Nat) :
    l.foldl (processOneImage fs) st = st := by
  have hstep : ∀ j, processOneImage fs st j = st := by
    intro j
    simp only [processOneImage, hst, Option.getD_some]
    split
    · rfl
    next img heq =>
      obtain ⟨hlt, hget⟩ := List.getElem?_eq_some.mp heq
      have hmem : img ∈ imgs := hget ▸ List.getElem_mem hlt
      rw [himg img hmem]
  induction l with
  | nil => rfl
  | cons j tl ih => rw [List.foldl_cons, hstep j, ih]

theorem binChunk_length_of_inv (st : St) (h : Inv4 st) :
    binChunkLengthOf (combinedBuffer st) = st.totalSize := by
  obtain ⟨hm, _, hc⟩ := h
  simp only [binChunkLengthOf]
  rw [hc, pad4_eq_zero hm]
  omega

theorem buffers_collapseBuffers_pos (st : St) (bs : List GBuffer)
    (hb : st.doc.buffers = some bs) (hlen : 0 < bs.length) :
    (collapseBuffers st).doc.buffers = some [{ uri := none, byteLength := st.totalSize }] := by
  unfold collapseBuffers
  simp only [hb]
  simp [hlen]

theorem buffers_updateFinal_single (st : St) (T : Nat)
    (hb : st.doc.buffers = some [{ uri := none, byteLength := T }]) :
    (updateFinalBufferSize st).doc.buffers =
      some [{ uri := none, byteLength := st.totalSize }] := by
  simp only [updateFinalBufferSize, hb]

theorem processBuffers_initSt (fs : FS) {d : Document} {bufs : List GBuffer}
    (hd : d.buffers = some bufs) :
    processBuffers fs (initSt d) = collapseBuffers (bufferLoopState fs d bufs.length) := by
  unfold processBuffers bufferLoopState initSt
  simp only [hd]

/-- C3: for a document whose external buffers all load, the running total
is the sum of each file size plus its per-segment padding, the collapsed
single buffer records exactly that byteLength, and the BIN chunk payload
has exactly that many bytes. -/
theorem consolidated_total_buffer_bin (fs : FS) (d : Document) (bufs : List GBuffer)
    (hd : d.buffers = some bufs) (hne : bufs ≠ [])
    (hall : ∀ b ∈ bufs, (bufLoad fs b.uri).isSome)
    (himg : ∀ img ∈ d.images.getD [], bufLoad fs img.uri = none) :
    (convertState fs d).totalSize =
      (bufs.map (fun b => segLen fs b.uri + pad4 (segLen fs b.uri))).sum ∧
    (convertState fs d).doc.buffers =
      some [{ uri := none, byteLength := (convertState fs d).totalSize }] ∧
    binChunkLengthOf (combinedBuffer (convertState fs d)) = (convertState fs d).totalSize := by
  obtain ⟨bs, hb1, hb2, _⟩ := bufferLoopState_buffers fs hd bufs.length
  have hlen : 0 < bs.length := hb2 ▸ List.length_pos.mpr hne
  have htot : (bufferLoopState fs d bufs.length).totalSize = sumLoads fs bufs := by
    have h := bufferLoopState_totalSize fs hd bufs.length
    rwa [List.take_length] at h
  have himgs2 : (collapseBuffers (bufferLoopState fs d bufs.length)).doc.images = d.images := by
    rw [images_collapseBuffers]
    exact images_foldBuffers fs _ _
  have hPI : processImages fs (collapseBuffers (bufferLoopState fs d bufs.length)) =
      collapseBuffers (bufferLoopState fs d bufs.length) := by
    unfold processImages
    cases hdi : d.images with
    | none => simp only [himgs2, hdi]
    | some imgs =>
      simp only [himgs2, hdi]
      exact foldImages_noop fs _ imgs (by rw [himgs2, hdi])
        (fun img hm => himg img (by rw [hdi]; exact hm)) _
  have e1 : convertState fs d =
      updateFinalBufferSize (collapseBuffers (bufferLoopState fs d bufs.length)) := by
    unfold convertState deepCopy
    rw [processBuffers_initSt fs hd, hPI]
  have hXb := buffers_collapseBuffers_pos _ bs hb1 hlen
  have htotX : (collapseBuffers (bufferLoopState fs d bufs.length)).totalSize =
      (bufferLoopState fs d bufs.length).totalSize := totalSize_collapseBuffers _
  have htotC : (convertState fs d).totalSize = (bufferLoopState fs d bufs.length).totalSize := by
    rw [e1, totalSize_updateFinalBufferSize, htotX]
  refine ⟨by rw [htotC, htot, sumLoads_all fs bufs hall], ?_, ?_⟩
  · rw [e1, buffers_updateFinal_single _ (bufferLoopState fs d bufs.length).totalSize (by rw [hXb]),
      totalSize_updateFinalBufferSize, htotX]
  · exact binChunk_length_of_inv _ (inv4_convertState fs d)

/-- Witness for C3 at the two-buffer example: total 8 + 0 + 3 + 1 = 12. -/
theorem consolidated_total_buffer_bin_witness :
    (docTwo.buffers = some bufsTwo ∧ (convertState fsTwo docTwo).totalSize = 12) ∧
    ((convertState fsTwo docTwo).totalSize =
      (bufsTwo.map (fun b => segLen fsTwo b.uri + pad4 (segLen fsTwo b.uri))).sum ∧
    (convertState fsTwo docTwo).doc.buffers =
      some [{ uri := none, byteLength := (convertState fsTwo docTwo).totalSize }] ∧
    binChunkLengthOf (combinedBuffer (convertState fsTwo docTwo)) =
      (convertState fsTwo docTwo).totalSize) :=
  ⟨⟨by decide, by decide⟩,
    consolidated_total_buffer_bin fsTwo docTwo bufsTwo
      (by decide) (by decide) (by decide) (by decide)⟩

theorem step_views_keep (fs : FS) (st : St) (j k : Nat) (bv : BufferView)
    (h : (st.doc.bufferViews.getD [])[k]? = some bv) (hne : bv.buffer ≠ j) :
    ((processOneBuffer fs st j).doc.bufferViews.getD [])[k]? = some bv := by
  simp only [processOneBuffer]
  split
  · exact h
  split
  · exact h
  · dsimp only
    cases ho : st.doc.bufferViews with
    | none => rw [ho] at h; simp at h
    | some vs =>
      rw [ho] at h
      simp only [Option.getD_some] at h
      simp [ho, patchViews, List.getElem?_map, h, hne]

theorem processOneBuffer_noop (fs : FS) (st : St) (i : Nat)
    (h : ∀ b, (st.doc.buffers.getD [])[i]? = some b → bufLoad fs b.uri = none) :
    processOneBuffer fs st i = st := by
  simp only [processOneBuffer]
  split
  · rfl
  next b heq =>
    rw [h b heq]

theorem bufferLoop_views_keep_lt (fs : FS) (d : Document) (k : Nat) (bv : BufferView)
    (hbv : (d.bufferViews.getD [])[k]? = some bv) (i : Nat) (hbuf : bv.buffer = i) :
    ∀ m, m ≤ i → ((bufferLoopState fs d m).doc.bufferViews.getD [])[k]? = some bv := by
  intro m hm
  induction m with
  | zero => exact hbv
  | succ m ih =>
    rw [bufferLoopState_succ]
    exact step_views_keep fs _ m k bv (ih (by omega)) (by omega)

theorem bufferLoop_decompose (fs : FS) (d : Document) (m n : Nat) (hmn : m ≤ n) :
    bufferLoopState fs d n =
      ((List.range (n - m)).map (fun x => m + x)).foldl (processOneBuffer fs)
        (bufferLoopState fs d m) := by
  unfold bufferLoopState
  conv_lhs => rw [show n = m + (n - m) by omega]
  rw [List.range_add, List.foldl_append]

theorem foldB_views_keep (fs : FS) (l : List Nat) (st : St) (k : Nat) (bv : BufferView)
    (h : (st.doc.bufferViews.getD [])[k]? = some bv) (hl : ∀ j ∈ l, bv.buffer ≠ j) :
    ((l.foldl (processOneBuffer fs) st).doc.bufferViews.getD [])[k]? = some bv := by
  induction l generalizing st with
  | nil => exact h
  | cons j tl ih =>
    rw [List.foldl_cons]
    exact ih _ (step_views_keep fs st j k bv h (hl j (List.mem_cons_self j tl)))
      (fun j2 hj2 => hl j2 (List.mem_cons_of_mem _ hj2))

theorem step_image_views_keep (fs : FS) (st : St) (j k : Nat) (bv : BufferView)
    (h : (st.doc.bufferViews.getD [])[k]? = some bv) :
    ((processOneImage fs st j).doc.bufferViews.getD [])[k]? = some bv := by
  simp only [processOneImage]
  split
  · exact h
  split
  · exact h
  · dsimp only
    have hk : k < (st.doc.bufferViews.getD []).length := (List.getElem?_eq_some.mp h).1
    simp only [Option.getD_some]
    rw [List.getElem?_append_left hk]
    exact h

theorem foldI_views_keep (fs : FS) (l : List Nat) (st : St) (k : Nat) (bv : BufferView)
    (h : (st.doc.bufferViews.getD [])[k]? = some bv) :
    ((l.foldl (processOneImage fs) st).doc.bufferViews.getD [])[k]? = some bv := by
  induction l generalizing st with
  | nil => exact h
  | cons j tl ih => exact ih _ (step_image_views_keep fs st j k bv h)

theorem processImages_views_keep (fs : FS) (st : St) (k : Nat) (bv : BufferView)
    (h : (st.doc.bufferViews.getD [])[k]? = some bv) :
    ((processImages fs st).doc.bufferViews.getD [])[k]? = some bv := by
  unfold processImages
  split
  · exact h
  · exact foldI_views_keep fs _ st k bv h

/-- C4: when buffer `i` has a non-data URI naming an existing file, every
bufferView that referenced buffer `i` ends up referencing buffer 0 with
the running total at the start of buffer i's data added to its previous
byteOffset (a missing byteOffset counting as 0). -/
theorem bufferView_retarget (fs : FS) (d : Document) (bufs : List GBuffer) (i : Nat)
    (b : GBuffer) (u : String) (data : Bytes) (k : Nat) (bv : BufferView)
    (hd : d.buffers = some bufs) (hb : bufs[i]? = some b) (hu : b.uri = some u)
    (hnd : strStartsWith u "data:" = false) (hr : FS.read fs u = some data)
    (hbv : (d.bufferViews.getD [])[k]? = some bv) (hbuf : bv.buffer = i) :
    ((convertState fs d).doc.bufferViews.getD [])[k]? =
      some { buffer := 0,
             byteOffset := some (bv.byteOffset.getD 0 + sumLoads fs (bufs.take i)),
             byteLength := bv.byteLength } := by
  have hload : bufLoad fs b.uri = some data := by
    rw [hu]; simp [bufLoad, hnd, hr]
  have hilt : i < bufs.length := (List.getElem?_eq_some.mp hb).1
  obtain ⟨bs, h1, h2, h3⟩ := bufferLoopState_buffers fs hd i
  have hafter : ((bufferLoopState fs d (i + 1)).doc.bufferViews.getD [])[k]? =
      some { buffer := 0,
             byteOffset := some (bv.byteOffset.getD 0 + sumLoads fs (bufs.take i)),
             byteLength := bv.byteLength } := by
    have hviews := bufferLoop_views_keep_lt fs d k bv hbv i hbuf i (le_refl i)
    rw [bufferLoopState_succ]
    simp only [processOneBuffer, h1, Option.getD_some, h3 i (le_refl i), hb, hload]
    cases ho : (bufferLoopState fs d i).doc.bufferViews with
    | none => rw [ho] at hviews; simp at hviews
    | some vs =>
      rw [ho] at hviews
      simp only [Option.getD_some] at hviews
      simp only [Option.map_some', Option.getD_some, patchViews, List.getElem?_map,
        hviews, hbuf, if_pos]
      rw [bufferLoopState_totalSize fs hd i]
  have hend : ((bufferLoopState fs d bufs.length).doc.bufferViews.getD [])[k]? =
      some { buffer := 0,
             byteOffset := some (bv.byteOffset.getD 0 + sumLoads fs (bufs.take i)),
             byteLength := bv.byteLength } := by
    rw [bufferLoop_decompose fs d (i + 1) bufs.length (by omega)]
    refine foldB_views_keep fs _ _ k _ hafter ?_
    intro j hj
    obtain ⟨x, _, rfl⟩ := List.mem_map.mp hj
    simp only []
    omega
  unfold convertState deepCopy
  rw [processBuffers_initSt fs hd, bufferViews_updateFinalBufferSize]
  apply processImages_views_keep
  rw [bufferViews_collapseBuffers]
  exact hend

/-- Witness for C4 at the two-buffer example: the view {buffer 1, offset
5} becomes {buffer 0, offset 13} after buffer 0 consumed 8 padded bytes. -/
theorem bufferView_retarget_witness :
    (docTwo.buffers = some bufsTwo ∧
      bufsTwo[1]? = some { uri := some "c.bin", byteLength := 3 } ∧
      sumLoads fsTwo (bufsTwo.take 1) = 8) ∧
    ((convertState fsTwo docTwo).doc.bufferViews.getD [])[0]? =
      some { buffer := 0,
             byteOffset := some ((some 5 : Option Nat).getD 0 + sumLoads fsTwo (bufsTwo.take 1)),
             byteLength := 3 } :=
  ⟨⟨by decide, by decide, by decide⟩,
    bufferView_retarget fsTwo docTwo bufsTwo 1 { uri := some "c.bin", byteLength := 3 }
      "c.bin" (List.replicate 3 2) 0 { buffer := 1, byteOffset := some 5, byteLength := 3 }
      (by decide) (by decide) (by decide) (by decide) (by decide) (by decide) (by decide)⟩

theorem imageLoopState_succ (fs : FS) (d : Document) (k : Nat) :
    imageLoopState fs d (k + 1) = processOneImage fs (imageLoopState fs d k) k := by
  unfold imageLoopState
  rw [List.range_succ, List.foldl_append]
  rfl

theorem inv4_imageLoopState (fs : FS) (d : Document) (k : Nat) :
    Inv4 (imageLoopState fs d k) :=
  inv4_foldImages fs _ _ (inv4_processBuffers fs _ (inv4_initSt d))

theorem imageLoopState_images (fs : FS) {d : Document} {imgs : List Image}
    (hd : d.images = some imgs) (k : Nat) :
    ∃ js, (imageLoopState fs d k).doc.images = some js ∧ js.length = imgs.length ∧
      ∀ j, k ≤ j → js[j]? = imgs[j]? := by
  induction k with
  | zero =>
    refine ⟨imgs, ?_, rfl, fun j _ => rfl⟩
    show (processBuffers fs (initSt d)).doc.images = some imgs
    rw [images_processBuffers]
    exact hd
  | succ k ih =>
    obtain ⟨js, h1, h2, h3⟩ := ih
    rw [imageLoopState_succ]
    simp only [processOneImage, h1, Option.getD_some]
    split
    · exact ⟨js, h1, h2, fun j hj => h3 j (by omega)⟩
    next img heq =>
      split
      · exact ⟨js, h1, h2, fun j hj => h3 j (by omega)⟩
      next data heq2 =>
        refine ⟨js.set k
          { uri := none,
            bufferView := some ((imageLoopState fs d k).doc.bufferViews.getD []).length,
            mimeType := some (getMimeType (extname (img.uri.getD ""))) }, by simp, ?_, ?_⟩
        · simp [h2]
        · intro j hj
          rw [List.getElem?_set_ne (by omega)]
          exact h3 j (by omega)

theorem step_image_preserve (fs : FS) (st : St) (j i : Nat) (hji : j ≠ i)
    (img1 : Image) (idx : Nat) (bv1 : BufferView) (sg : Nat × Nat) (dt : Bytes)
    (h1 : (st.doc.images.getD [])[i]? = some img1)
    (h2 : (st.doc.bufferViews.getD [])[idx]? = some bv1)
    (h3 : sg ∈ st.segs) (h4 : dt ∈ st.binaryChunks) :
    ((processOneImage fs st j).doc.images.getD [])[i]? = some img1 ∧
    ((processOneImage fs st j).doc.bufferViews.getD [])[idx]? = some bv1 ∧
    sg ∈ (processOneImage fs st j).segs ∧
    dt ∈ (processOneImage fs st j).binaryChunks := by
  simp only [processOneImage]
  split
  · exact ⟨h1, h2, h3, h4⟩
  split
  · exact ⟨h1, h2, h3, h4⟩
  · dsimp only
    refine ⟨?_, ?_, ?_, ?_⟩
    · cases ho : st.doc.images with
      | none => rw [ho] at h1; simp at h1
      | some js =>
        rw [ho] at h1
        simp only [Option.getD_some] at h1
        simp only [ho, Option.map_some', Option.getD_some]
        rw [List.getElem?_set_ne hji]
        exact h1
    · have hk : idx < (st.doc.bufferViews.getD []).length := (List.getElem?_eq_some.mp h2).1
      simp only [Option.getD_some]
      rw [List.getElem?_append_left hk]
      exact h2
    · exact List.mem_append.mpr (Or.inl h3)
    · split
      · simp [List.mem_append, h4]
      · simp [List.mem_append, h4]

theorem foldI_preserve (fs : FS) (l : List Nat) (i : Nat) (hl : ∀ j ∈ l, j ≠ i) (st : St)
    (img1 : Image) (idx : Nat) (bv1 : BufferView) (sg : Nat × Nat) (dt : Bytes)
    (h1 : (st.doc.images.getD [])[i]? = some img1)
    (h2 : (st.doc.bufferViews.getD [])[idx]? = some bv1)
    (h3 : sg ∈ st.segs) (h4 : dt ∈ st.binaryChunks) :
    ((l.foldl (processOneImage fs) st).doc.images.getD [])[i]? = some img1 ∧
    ((l.foldl (processOneImage fs) st).doc.bufferViews.getD [])[idx]? = some bv1 ∧
    sg ∈ (l.foldl (processOneImage fs) st).segs ∧
    dt ∈ (l.foldl (processOneImage fs) st).binaryChunks := by
  induction l generalizing st with
  | nil => exact ⟨h1, h2, h3, h4⟩
  | cons j tl ih =>
    rw [List.foldl_cons]
    obtain ⟨g1, g2, g3, g4⟩ := step_image_preserve fs st j i
      (hl j (List.mem_cons_self j tl)) img1 idx bv1 sg dt h1 h2 h3 h4
    exact ih (fun j2 hj2 => hl j2 (List.mem_cons_of_mem _ hj2)) _ g1 g2 g3 g4

theorem imageLoop_decompose (fs : FS) (d : Document) (m n : Nat) (hmn : m ≤ n) :
    imageLoopState fs d n =
      ((List.range (n - m)).map (fun x => m + x)).foldl (processOneImage fs)
        (imageLoopState fs d m) := by
  unfold imageLoopState
  conv_lhs => rw [show n = m + (n - m) by omega]
  rw [List.range_add, List.foldl_append]

/-- C5: when image `i` has a non-data URI naming an existing file, the
final document rewrites the image to `{ bufferView, mimeType }` with no
uri, where the mimeType comes from the extension table, the referenced
bufferView is a new entry `{buffer: 0, byteOffset: off, byteLength:
fileSize}` at a 4-aligned offset, and the file bytes were pushed as a
segment recorded at that offset. -/
theorem image_embedding (fs : FS) (d : Document) (imgs : List Image) (i : Nat)
    (img : Image) (u : String) (data : Bytes)
    (hd : d.images = some imgs) (hi : imgs[i]? = some img) (hu : img.uri = some u)
    (hnd : strStartsWith u "data:" = false) (hr : FS.read fs u = some data) :
    ∃ idx off,
      ((convertState fs d).doc.images.getD [])[i]? =
        some { uri := none, bufferView := some idx,
               mimeType := some (getMimeType (extname u)) } ∧
      ((convertState fs d).doc.bufferViews.getD [])[idx]? =
        some { buffer := 0, byteOffset := some off, byteLength := data.length } ∧
      (off, data.length) ∈ (convertState fs d).segs ∧
      data ∈ (convertState fs d).binaryChunks ∧ 4 ∣ off := by
  have hload : bufLoad fs img.uri = some data := by
    rw [hu]; simp [bufLoad, hnd, hr]
  have hilt : i < imgs.length := (List.getElem?_eq_some.mp hi).1
  obtain ⟨js, h1, h2, h3⟩ := imageLoopState_images fs hd i
  have hjlt : i < js.length := by
    have := h3 i (le_refl i)
    omega
  refine ⟨((imageLoopState fs d i).doc.bufferViews.getD []).length,
    (imageLoopState fs d i).totalSize, ?_⟩
  have F1 : ((imageLoopState fs d (i + 1)).doc.images.getD [])[i]? =
      some { uri := none,
             bufferView := some ((imageLoopState fs d i).doc.bufferViews.getD []).length,
             mimeType := some (getMimeType (extname u)) } := by
    rw [imageLoopState_succ]
    simp only [processOneImage, h1, Option.getD_some, h3 i (le_refl i), hi, hload]
    simp only [h1, Option.map_some', Option.getD_some]
    rw [List.getElem?_set_self hjlt, hu]
    exact rfl
  have F2 : getElem? ((imageLoopState fs d (i + 1)).doc.bufferViews.getD [])
      ((imageLoopState fs d i).doc.bufferViews.getD []).length =
      some { buffer := 0, byteOffset := some (imageLoopState fs d i).totalSize,
             byteLength := data.length } := by
    rw [imageLoopState_succ]
    simp only [processOneImage, h1, Option.getD_some, h3 i (le_refl i), hi, hload]
    exact List.getElem?_concat_length _ _
  have F3 : ((imageLoopState fs d i).totalSize, data.length) ∈
      (imageLoopState fs d (i + 1)).segs := by
    rw [imageLoopState_succ]
    simp only [processOneImage, h1, Option.getD_some, h3 i (le_refl i), hi, hload]
    simp [List.mem_append]
  have F4 : data ∈ (imageLoopState fs d (i + 1)).binaryChunks := by
    rw [imageLoopState_succ]
    simp only [processOneImage, h1, Option.getD_some, h3 i (le_refl i), hi, hload]
    split
    · simp [List.mem_append]
    · simp [List.mem_append]
  have hdec := imageLoop_decompose fs d (i + 1) imgs.length (by omega)
  have hfold := foldI_preserve fs ((List.range (imgs.length - (i + 1))).map (fun x => i + 1 + x))
    i (by
      intro j hj
      obtain ⟨x, _, rfl⟩ := List.mem_map.mp hj
      omega)
    (imageLoopState fs d (i + 1)) _ _ _ _ _ F1 F2 F3 F4
  rw [← hdec] at hfold
  have hPIeq : processImages fs (processBuffers fs (initSt d)) =
      imageLoopState fs d imgs.length := by
    have him : (processBuffers fs (initSt d)).doc.images = some imgs := by
      rw [images_processBuffers]; exact hd
    unfold processImages imageLoopState
    simp only [him]
  have hCS : convertState fs d = updateFinalBufferSize (imageLoopState fs d imgs.length) := by
    unfold convertState deepCopy
    rw [hPIeq]
  rw [hCS, images_updateFinalBufferSize, bufferViews_updateFinalBufferSize,
    segs_updateFinalBufferSize, binaryChunks_updateFinalBufferSize]
  exact ⟨hfold.1, hfold.2.1, hfold.2.2.1, hfold.2.2.2,
    Nat.dvd_of_mod_eq_zero (inv4_imageLoopState fs d i).1⟩

/-- Witness for C5 at the worked example: the 7-byte image lands at
offset 12 behind the 10-byte (padded to 12) buffer, in new bufferView 1
with mimeType image/png. -/
theorem image_embedding_witness :
    (docEx.images = some [{ uri := some "i.png", bufferView := none, mimeType := none }] ∧
      FS.read fsEx "i.png" = some (List.replicate 7 9) ∧
      getMimeType (extname "i.png") = "image/png") ∧
    (∃ idx off,
      ((convertState fsEx docEx).doc.images.getD [])[0]? =
        some { uri := none, bufferView := some idx,
               mimeType := some (getMimeType (extname "i.png")) } ∧
      ((convertState fsEx docEx).doc.bufferViews.getD [])[idx]? =
        some { buffer := 0, byteOffset := some off,
               byteLength := (List.replicate 7 9 : Bytes).length } ∧
      (off, (List.replicate 7 9 : Bytes).length) ∈ (convertState fsEx docEx).segs ∧
      (List.replicate 7 9 : Bytes) ∈ (convertState fsEx docEx).binaryChunks ∧ 4 ∣ off) :=
  ⟨⟨by decide, by decide, by decide⟩,
    image_embedding fsEx docEx [{ uri := some "i.png", bufferView := none, mimeType := none }]
      0 { uri := some "i.png", bufferView := none, mimeType := none } "i.png"
      (List.replicate 7 9) (by decide) (by decide) (by decide) (by decide) (by decide)⟩

theorem processOneImage_noop (fs : FS) (st : St) (i : Nat)
    (h : ∀ img, (st.doc.images.getD [])[i]? = some img → bufLoad fs img.uri = none) :
    processOneImage fs st i = st := by
  simp only [processOneImage]
  split
  · rfl
  next img heq =>
    rw [h img heq]

theorem step_image_images_keep (fs : FS) (st : St) (j m : Nat) (hjm : j ≠ m)
    (img : Image) (h : (st.doc.images.getD [])[m]? = some img) :
    ((processOneImage fs st j).doc.images.getD [])[m]? = some img := by
  simp only [processOneImage]
  split
  · exact h
  split
  · exact h
  · dsimp only
    cases ho : st.doc.images with
    | none => rw [ho] at h; simp at h
    | some js =>
      rw [ho] at h
      simp only [Option.getD_some] at h
      simp only [ho, Option.map_some', Option.getD_some]
      rw [List.getElem?_set_ne hjm]
      exact h

theorem convertState_eq_imageLoop (fs : FS) {d : Document} {imgs : List Image}
    (hd : d.images = some imgs) :
    convertState fs d = updateFinalBufferSize (imageLoopState fs d imgs.length) := by
  have him : (processBuffers fs (initSt d)).doc.images = some imgs := by
    rw [images_processBuffers]; exact hd
  unfold convertState deepCopy processImages imageLoopState
  simp only [him]

/-- C6: a buffer entry whose non-data URI names a missing file is
skipped: its loop iteration leaves the whole collection state unchanged
(no segment, no total advance, no patching, uri kept), and the
bufferViews that reference it survive the conversion unmodified;
likewise the loop iteration of an image with a missing file leaves the
state unchanged and the image keeps its uri in the final document. -/
theorem missing_file_skipped (fs : FS) (d : Document) :
    (∀ (i : Nat) (b : GBuffer) (u : String), (d.buffers.getD [])[i]? = some b → b.uri = some u →
      strStartsWith u "data:" = false → FS.read fs u = none →
      processOneBuffer fs (bufferLoopState fs d i) i = bufferLoopState fs d i ∧
      ∀ (k : Nat) (bv : BufferView), (d.bufferViews.getD [])[k]? = some bv → bv.buffer = i →
        ((convertState fs d).doc.bufferViews.getD [])[k]? = some bv) ∧
    (∀ (m : Nat) (img : Image) (u : String), (d.images.getD [])[m]? = some img → img.uri = some u →
      strStartsWith u "data:" = false → FS.read fs u = none →
      processOneImage fs (imageLoopState fs d m) m = imageLoopState fs d m ∧
      ((convertState fs d).doc.images.getD [])[m]? = some img) := by
  constructor
  · intro i b u hb hu hnd hr
    have hload : bufLoad fs b.uri = none := by
      rw [hu]; simp [bufLoad, hnd, hr]
    have hd : ∃ bufs, d.buffers = some bufs := by
      cases hdb : d.buffers with
      | none => rw [hdb] at hb; simp at hb
      | some bufs => exact ⟨bufs, rfl⟩
    obtain ⟨bufs, hd⟩ := hd
    rw [hd] at hb
    simp only [Option.getD_some] at hb
    have hnoop : ∀ m, m = i →
        processOneBuffer fs (bufferLoopState fs d m) m = bufferLoopState fs d m := by
      intro m hmi
      subst hmi
      obtain ⟨bs, h1, h2, h3⟩ := bufferLoopState_buffers fs hd m
      apply processOneBuffer_noop
      intro b2 hb2
      rw [h1, Option.getD_some, h3 m (le_refl m), hb] at hb2
      cases hb2
      exact hload
    refine ⟨hnoop i rfl, ?_⟩
    intro k bv hbv hbuf
    have hkeep : ∀ m, ((bufferLoopState fs d m).doc.bufferViews.getD [])[k]? = some bv := by
      intro m
      induction m with
      | zero => exact hbv
      | succ m ih =>
        rw [bufferLoopState_succ]
        by_cases hmi : m = i
        · rw [hnoop m hmi]; exact ih
        · exact step_views_keep fs _ m k bv ih (by omega)
    unfold convertState deepCopy
    rw [processBuffers_initSt fs hd, bufferViews_updateFinalBufferSize]
    apply processImages_views_keep
    rw [bufferViews_collapseBuffers]
    exact hkeep bufs.length
  · intro m img u hm hu hnd hr
    have hload : bufLoad fs img.uri = none := by
      rw [hu]; simp [bufLoad, hnd, hr]
    have hdi : ∃ imgs, d.images = some imgs := by
      cases hdm : d.images with
      | none => rw [hdm] at hm; simp at hm
      | some imgs => exact ⟨imgs, rfl⟩
    obtain ⟨imgs, hdi⟩ := hdi
    rw [hdi] at hm
    simp only [Option.getD_some] at hm
    have hnoop : ∀ n, n = m →
        processOneImage fs (imageLoopState fs d n) n = imageLoopState fs d n := by
      intro n hnm
      subst hnm
      obtain ⟨js, h1, h2, h3⟩ := imageLoopState_images fs hdi n
      apply processOneImage_noop
      intro img2 hi2
      rw [h1, Option.getD_some, h3 n (le_refl n), hm] at hi2
      cases hi2
      exact hload
    refine ⟨hnoop m rfl, ?_⟩
    have hkeep : ∀ n, ((imageLoopState fs d n).doc.images.getD [])[m]? = some img := by
      intro n
      induction n with
      | zero =>
        show ((processBuffers fs (initSt d)).doc.images.getD [])[m]? = some img
        rw [images_processBuffers]
        show ((d.images.getD [])[m]?) = some img
        rw [hdi, Option.getD_some]
        exact hm
      | succ n ih =>
        rw [imageLoopState_succ]
        by_cases hnm : n = m
        · rw [hnoop n hnm]; exact ih
        · exact step_image_images_keep fs _ n m hnm img ih
    rw [convertState_eq_imageLoop fs hdi, images_updateFinalBufferSize]
    exact hkeep imgs.length

/-- Witness for C6: a document referencing missing.bin and missing.png
with an empty file system; the buffer and image iterations are identity
and the view and image survive unchanged. -/
theorem missing_file_skipped_witness :
    ((docMissing.buffers.getD [])[0]? = some { uri := some "missing.bin", byteLength := 8 } ∧
      FS.read [] "missing.bin" = none ∧
      (docMissing.images.getD [])[0]? =
        some { uri := some "missing.png", bufferView := none, mimeType := none }) ∧
    (processOneBuffer [] (bufferLoopState [] docMissing 0) 0 = bufferLoopState [] docMissing 0 ∧
      ((convertState [] docMissing).doc.bufferViews.getD [])[0]? =
        some { buffer := 0, byteOffset := some 4, byteLength := 4 }) ∧
    (processOneImage [] (imageLoopState [] docMissing 0) 0 = imageLoopState [] docMissing 0 ∧
      ((convertState [] docMissing).doc.images.getD [])[0]? =
        some { uri := some "missing.png", bufferView := none, mimeType := none }) :=
  ⟨⟨by decide, by decide, by decide⟩,
    ⟨((missing_file_skipped [] docMissing).1 0 { uri := some "missing.bin", byteLength := 8 }
        "missing.bin" (by decide) (by decide) (by decide) (by decide)).1,
      ((missing_file_skipped [] docMissing).1 0 { uri := some "missing.bin", byteLength := 8 }
        "missing.bin" (by decide) (by decide) (by decide) (by decide)).2 0
        { buffer := 0, byteOffset := some 4, byteLength := 4 } (by decide) (by decide)⟩,
    (missing_file_skipped [] docMissing).2 0
      { uri := some "missing.png", bufferView := none, mimeType := none }
      "missing.png" (by decide) (by decide) (by decide) (by decide)⟩

theorem images_dataOnlyPatch (d : Document) : (dataOnlyPatch d).images = d.images := by
  unfold dataOnlyPatch
  split
  · rfl
  · rfl

/-- Counterexample to C7 as stated: for the document whose single buffer
is a data: URI, the BIN chunk is indeed absent, but the JSON content is
not the input content: the buffers array is collapsed to
`[{byteLength: 0}]`, destroying the data: URI entry. -/
theorem dataUri_unmodified_json_cex :
    ¬ (binChunkLengthOf (combinedBuffer (convertState [] docData)) = 0 ∧
      serializeDocument (ensureAsset (convertState [] docData).doc) =
        serializeDocument docData) := by
  decide

/-- C7 (amended): converting a document whose buffers and images all use
data: URIs embeds nothing — the collection state carries no bytes and no
segments and the BIN chunk is absent — and the serialized document equals
the input except that a non-empty buffers array is collapsed to the
single entry `{ byteLength: 0 }` (and an asset is supplied by createGLB
when absent). -/
theorem dataUri_conversion_state (fs : FS) (d : Document)
    (hb : ∀ b ∈ d.buffers.getD [], ∀ u, b.uri = some u → strStartsWith u "data:" = true)
    (hi : ∀ img ∈ d.images.getD [], ∀ u, img.uri = some u → strStartsWith u "data:" = true) :
    convertState fs d =
      { doc := dataOnlyPatch d, binaryChunks := [], totalSize := 0, segs := [] } ∧
    binChunkLengthOf (combinedBuffer (convertState fs d)) = 0 := by
  have hbl : ∀ b ∈ d.buffers.getD [], bufLoad fs b.uri = none := by
    intro b hm
    cases hub : b.uri with
    | none => rfl
    | some u => simp [bufLoad, hb b hm u hub]
  have hil : ∀ img ∈ d.images.getD [], bufLoad fs img.uri = none := by
    intro img hm
    cases hub : img.uri with
    | none => rfl
    | some u => simp [bufLoad, hi img hm u hub]
  have hstep : ∀ i, processOneBuffer fs (initSt d) i = initSt d := by
    intro i
    apply processOneBuffer_noop
    intro b hbg
    obtain ⟨hlt, hget⟩ := List.getElem?_eq_some.mp hbg
    exact hbl b (hget ▸ List.getElem_mem hlt)
  have hfoldB : ∀ l : List Nat, l.foldl (processOneBuffer fs) (initSt d) = initSt d := by
    intro l
    induction l with
    | nil => rfl
    | cons j tl ih => rw [List.foldl_cons, hstep j, ih]
  have hPB : processBuffers fs (initSt d) =
      { doc := dataOnlyPatch d, binaryChunks := [], totalSize := 0, segs := [] } := by
    unfold processBuffers
    cases hdb : d.buffers with
    | none =>
      have hdisc : (initSt d).doc.buffers = none := hdb
      simp only [hdisc]
      unfold dataOnlyPatch initSt
      rw [hdb]
    | some bufs =>
      have hdisc : (initSt d).doc.buffers = some bufs := hdb
      simp only [hdisc]
      rw [hfoldB]
      unfold collapseBuffers dataOnlyPatch initSt
      simp only [hdb]
      cases bufs with
      | nil => simp
      | cons b bs => simp
  have hPI : processImages fs
      { doc := dataOnlyPatch d, binaryChunks := [], totalSize := 0, segs := [] } =
      { doc := dataOnlyPatch d, binaryChunks := [], totalSize := 0, segs := [] } := by
    unfold processImages
    cases hdi : d.images with
    | none =>
      have : (dataOnlyPatch d).images = none := by rw [images_dataOnlyPatch, hdi]
      simp only [this]
    | some imgs =>
      have hsi : (dataOnlyPatch d).images = some imgs := by rw [images_dataOnlyPatch, hdi]
      simp only [hsi]
      exact foldImages_noop fs _ imgs hsi
        (fun img hm => hil img (by rw [hdi]; exact hm)) _
  have hUF : updateFinalBufferSize
      { doc := dataOnlyPatch d, binaryChunks := [], totalSize := 0, segs := [] } =
      { doc := dataOnlyPatch d, binaryChunks := [], totalSize := 0, segs := [] } := by
    unfold updateFinalBufferSize dataOnlyPatch
    cases hdb : d.buffers with
    | none => simp [hdb]
    | some bufs =>
      cases bufs with
      | nil => simp [hdb]
      | cons b bs => simp [hdb]
  have e1 : convertState fs d =
      { doc := dataOnlyPatch d, binaryChunks := [], totalSize := 0, segs := [] } := by
    unfold convertState deepCopy
    rw [hPB, hPI, hUF]
  exact ⟨e1, by rw [e1]; simp [binChunkLengthOf, combinedBuffer, pad4]⟩

/-- Witness for the amended C7 at the data: URI document. -/
theorem dataUri_conversion_state_witness :
    ((∀ b ∈ docData.buffers.getD [], ∀ u, b.uri = some u →
        strStartsWith u "data:" = true) ∧
      dataOnlyPatch docData =
        { docData with buffers := some [{ uri := none, byteLength := 0 }] }) ∧
    (convertState [] docData =
      { doc := dataOnlyPatch docData, binaryChunks := [], totalSize := 0, segs := [] } ∧
    binChunkLengthOf (combinedBuffer (convertState [] docData)) = 0) :=
  ⟨⟨by decide, by decide⟩,
    dataUri_conversion_state [] docData (by decide) (by decide)⟩

/-- Counterexample to C8 as stated: for an input whose asset object is
present but lacks the version field, createGLB leaves it alone — the
serialized document still has no asset.version, because line 159 only
checks for a missing asset object, not a missing version field. -/
theorem asset_version_cex :
    Option.map Asset.version docEmptyAsset.asset = some none ∧
      Option.map Asset.version (ensureAsset (convertState [] docEmptyAsset).doc).asset ≠
        some (some "2.0") := by
  decide

/-- C8 (amended): when the input document has no asset object at all,
the document serialized into the container carries
`asset = { version: "2.0" }`. -/
theorem asset_added_when_absent (fs : FS) (d : Document) (h : d.asset = none) :
    (ensureAsset (convertState fs d).doc).asset = some { version := some "2.0" } := by
  have hca : (convertState fs d).doc.asset = none := by
    rw [asset_convertState]; exact h
  unfold ensureAsset
  rw [hca]
  simp

/-- Witness for the amended C8 at the assetless document. -/
theorem asset_added_when_absent_witness :
    docAssetless.asset = none ∧
      (ensureAsset (convertState [] docAssetless).doc).asset =
        some { version := some "2.0" } :=
  ⟨by decide, asset_added_when_absent [] docAssetless (by decide)⟩

/-- C9: the conversion never mutates the caller's parsed document: the
run keeps the original alongside the result, every patching step acting
only on the deep copy of line 45 (modelled by explicit state passing, so
the frame property is that the original component is returned intact and
the output is a function of the copy alone). -/
theorem original_document_not_mutated (fs : FS) (d : Document) :
    (convertRun fs d).1 = d ∧ (convertRun fs d).2 = convertGLTFToGLB fs (deepCopy d) :=
  ⟨rfl, rfl⟩

theorem totalSize_step_image_le (fs : FS) (st : St) (j : Nat) :
    st.totalSize ≤ (processOneImage fs st j).totalSize := by
  simp only [processOneImage]
  split
  · exact le_refl _
  split
  · exact le_refl _
  · dsimp only
    omega

theorem totalSize_foldI_le (fs : FS) (l : List Nat) (st : St) :
    st.totalSize ≤ (l.foldl (processOneImage fs) st).totalSize := by
  induction l generalizing st with
  | nil => exact le_refl _
  | cons j tl ih =>
    rw [List.foldl_cons]
    exact le_trans (totalSize_step_image_le fs st j) (ih _)

theorem step_image_views_zero (fs : FS) (st : St) (j : Nat) (L : Nat)
    (hP : ∀ (k : Nat) (bv : BufferView), L ≤ k →
      (st.doc.bufferViews.getD [])[k]? = some bv → bv.buffer = 0) :
    ∀ (k : Nat) (bv : BufferView), L ≤ k →
      ((processOneImage fs st j).doc.bufferViews.getD [])[k]? = some bv → bv.buffer = 0 := by
  intro k bv hk
  simp only [processOneImage]
  split
  · exact hP k bv hk
  split
  · exact hP k bv hk
  · dsimp only
    simp only [Option.getD_some]
    intro h
    rw [List.getElem?_append] at h
    split at h
    · exact hP k bv hk h
    · cases hd2 : k - (st.doc.bufferViews.getD []).length with
      | zero =>
        rw [hd2] at h
        simp only [List.getElem?_cons_zero] at h
        cases h
        rfl
      | succ n =>
        rw [hd2] at h
        simp at h

theorem foldI_views_zero (fs : FS) (l : List Nat) (st : St) (L : Nat)
    (hP : ∀ (k : Nat) (bv : BufferView), L ≤ k →
      (st.doc.bufferViews.getD [])[k]? = some bv → bv.buffer = 0) :
    ∀ (k : Nat) (bv : BufferView), L ≤ k →
      ((l.foldl (processOneImage fs) st).doc.bufferViews.getD [])[k]? = some bv →
        bv.buffer = 0 := by
  induction l generalizing st with
  | nil => exact hP
  | cons j tl ih =>
    rw [List.foldl_cons]
    exact ih _ (step_image_views_zero fs st j L hP)

/-- Counterexample to C10 as stated: with no buffers array and one
external image whose existing file is empty, a bufferView is created but
the BIN chunk is absent (length 0), not non-empty. -/
theorem imageOnly_nonempty_bin_cex :
    docImageOnly.buffers = none ∧
      (docImageOnly.images.getD [])[0]? =
        some { uri := some "img.png", bufferView := none, mimeType := none } ∧
      FS.read fsImageEmpty "img.png" = some [] ∧
      ((convertState fsImageEmpty docImageOnly).doc.bufferViews.getD [])[0]? =
        some { buffer := 0, byteOffset := some 0, byteLength := 0 } ∧
      binChunkLengthOf (combinedBuffer (convertState fsImageEmpty docImageOnly)) = 0 := by
  decide

/-- C10 (amended): for a document with no buffers array and an external
image whose existing file is non-empty, the BIN chunk is present and
non-empty, every bufferView beyond the original list has buffer 0, and
the final document still has no buffers entry. -/
theorem imageOnly_document_bin (fs : FS) (d : Document) (imgs : List Image) (i : Nat)
    (img : Image) (u : String) (data : Bytes)
    (hbuf : d.buffers = none) (hd : d.images = some imgs)
    (hi : imgs[i]? = some img) (hu : img.uri = some u)
    (hnd : strStartsWith u "data:" = false) (hr : FS.read fs u = some data)
    (hne : data ≠ []) :
    0 < binChunkLengthOf (combinedBuffer (convertState fs d)) ∧
    (convertState fs d).doc.buffers = none ∧
    (∀ (k : Nat) (bv : BufferView), (d.bufferViews.getD []).length ≤ k →
      ((convertState fs d).doc.bufferViews.getD [])[k]? = some bv → bv.buffer = 0) := by
  have hload : bufLoad fs img.uri = some data := by
    rw [hu]; simp [bufLoad, hnd, hr]
  have hilt : i < imgs.length := (List.getElem?_eq_some.mp hi).1
  obtain ⟨js, h1, h2, h3⟩ := imageLoopState_images fs hd i
  have hPB0 : processBuffers fs (initSt d) = initSt d := by
    unfold processBuffers
    have hdisc : (initSt d).doc.buffers = none := hbuf
    simp only [hdisc]
  have hCS := convertState_eq_imageLoop fs hd
  have hstepTot : data.length ≤ (imageLoopState fs d (i + 1)).totalSize := by
    rw [imageLoopState_succ]
    simp only [processOneImage, h1, Option.getD_some, h3 i (le_refl i), hi, hload]
    omega
  have hTot : data.length ≤ (imageLoopState fs d imgs.length).totalSize := by
    rw [imageLoop_decompose fs d (i + 1) imgs.length (by omega)]
    exact le_trans hstepTot (totalSize_foldI_le fs _ _)
  have hTotC : (convertState fs d).totalSize = (imageLoopState fs d imgs.length).totalSize := by
    rw [hCS, totalSize_updateFinalBufferSize]
  have hbLoop : ∀ k, (imageLoopState fs d k).doc.buffers = none := by
    intro k
    unfold imageLoopState
    rw [buffers_foldImages, hPB0]
    exact hbuf
  refine ⟨?_, ?_, ?_⟩
  · have hc := (inv4_convertState fs d).2.2
    have hlen0 : 0 < data.length := List.length_pos.mpr hne
    unfold binChunkLengthOf
    omega
  · rw [hCS]
    unfold updateFinalBufferSize
    simp only [hbLoop imgs.length]
  · intro k bv hk h
    have hPbase : ∀ (k2 : Nat) (bv2 : BufferView), (d.bufferViews.getD []).length ≤ k2 →
        ((processBuffers fs (initSt d)).doc.bufferViews.getD [])[k2]? = some bv2 →
          bv2.buffer = 0 := by
      intro k2 bv2 hk2 h2b
      rw [hPB0] at h2b
      have : ((d.bufferViews.getD []))[k2]? = some bv2 := h2b
      rw [List.getElem?_eq_none hk2] at this
      cases this
    rw [hCS, bufferViews_updateFinalBufferSize] at h
    unfold imageLoopState at h
    exact foldI_views_zero fs _ _ _ hPbase k bv hk h

/-- Witness for the amended C10: a 3-byte image file with no buffers
array gives a non-empty BIN region, no buffers entry, and buffer-0
views. -/
theorem imageOnly_document_bin_witness :
    (docImageOnly.buffers = none ∧ FS.read fsImageOnly "img.png" = some [5, 6, 7]) ∧
    (0 < binChunkLengthOf (combinedBuffer (convertState fsImageOnly docImageOnly)) ∧
    (convertState fsImageOnly docImageOnly).doc.buffers = none ∧
    (∀ (k : Nat) (bv : BufferView), (docImageOnly.bufferViews.getD []).length ≤ k →
      ((convertState fsImageOnly docImageOnly).doc.bufferViews.getD [])[k]? = some bv →
        bv.buffer = 0)) :=
  ⟨⟨by decide, by decide⟩,
    imageOnly_document_bin fsImageOnly docImageOnly
      [{ uri := some "img.png", bufferView := none, mimeType := none }] 0
      { uri := some "img.png", bufferView := none, mimeType := none } "img.png" [5, 6, 7]
      (by decide) (by decide) (by decide) (by decide) (by decide) (by decide) (by decide)⟩

theorem u32le_length (n : Nat) : (u32le n).length = 4 := rfl

/-- C1: every container createGLB emits is, in order, the 12-byte header
(magic, version 2, total length, little-endian), the JSON chunk header
and space-padded payload, and — only when binary data exists — the BIN
chunk header and zero-padded payload; the total-length word equals the
exact emitted byte count (which is also below 2^32, so its 32-bit
encoding is exact), and both payloads are 4-aligned. -/
theorem glb_container_layout (d : Document) (bin out : Bytes)
    (h : createGLB d bin = some out) :
    out = glbLayout d bin ∧
    out.length = 12 + (8 + (jsonChunkOf d).length) +
      (if 0 < (binChunkOf bin).length then 8 + (binChunkOf bin).length else 0) ∧
    out.length < 4294967296 ∧
    ((binChunkOf bin).length = 0 ↔ bin = []) ∧
    4 ∣ (jsonChunkOf d).length ∧ 4 ∣ (binChunkOf bin).length := by
  have hjl : (jsonChunkOf d).length =
      (serializeDocument (ensureAsset d)).length +
        pad4 (serializeDocument (ensureAsset d)).length := by
    simp [jsonChunkOf]
  have hbl : (binChunkOf bin).length = bin.length + pad4 bin.length := by
    simp [binChunkOf]
  have hj4 : 4 ∣ (jsonChunkOf d).length := by
    rw [hjl]
    exact Nat.dvd_of_mod_eq_zero (roundUp4_mod _)
  have hb4 : 4 ∣ (binChunkOf bin).length := by
    rw [hbl]
    exact Nat.dvd_of_mod_eq_zero (roundUp4_mod _)
  have hiff : (binChunkOf bin).length = 0 ↔ bin = [] := by
    rw [hbl]
    constructor
    · intro h0
      exact List.length_eq_zero.mp (by omega)
    · intro h0
      subst h0
      simp [pad4]
  simp only [createGLB] at h
  split at h
  next hbc =>
    have hbc2 : 0 < (binChunkOf bin).length := by rw [hbl]; exact hbc
    split at h
    next hlt =>
      have hX := (Option.some.inj h).symm
      have hlen2 : out.length =
          12 + (8 + (jsonChunkOf d).length) + (8 + (binChunkOf bin).length) := by
        rw [hX, hjl, hbl]
        simp only [List.length_append, u32le_length, List.length_replicate]
        omega
      refine ⟨?_, ?_, ?_, hiff, hj4, hb4⟩
      · rw [hX]
        unfold glbLayout
        rw [if_pos hbc2, if_pos hbc2, ← hlen2]
        unfold jsonChunkOf binChunkOf
        simp [List.append_assoc, hX]
        congr 1
        simp only [u32le_length]
        omega
      · rw [if_pos hbc2]
        exact hlen2
      · rw [hlen2, hjl, hbl]
        exact hlt
    next => exact Option.noConfusion h
  next hbc =>
    have hbc2 : ¬ 0 < (binChunkOf bin).length := by rw [hbl]; exact hbc
    split at h
    next hlt =>
      have hX := (Option.some.inj h).symm
      have hlen2 : out.length = 12 + (8 + (jsonChunkOf d).length) := by
        rw [hX, hjl]
        simp only [List.length_append, u32le_length, List.length_replicate,
          List.length_nil]
        omega
      refine ⟨?_, ?_, ?_, hiff, hj4, hb4⟩
      · rw [hX]
        unfold glbLayout
        rw [if_neg hbc2, if_neg hbc2]
        have harg : 12 + (8 + (jsonChunkOf d).length) + 0 =
            12 + (8 + (jsonChunkOf d).length) := by omega
        rw [harg, ← hlen2]
        unfold jsonChunkOf
        simp [List.append_assoc, hX]
        congr 1
        simp only [u32le_length]
        omega
      · rw [if_neg hbc2]
        omega
      · rw [hlen2, hjl]
        omega
    next => exact Option.noConfusion h

/-- Witness for C1: the container built for the assetless document and
a 3-byte binary region satisfies the layout and total-length facts. -/
theorem glb_container_layout_witness :
    createGLB docAssetless [1, 2, 3] = some outEx ∧
    (outEx = glbLayout docAssetless [1, 2, 3] ∧
      outEx.length = 12 + (8 + (jsonChunkOf docAssetless).length) +
        (if 0 < (binChunkOf [1, 2, 3]).length then 8 + (binChunkOf [1, 2, 3]).length else 0) ∧
      outEx.length < 4294967296 ∧
      ((binChunkOf [1, 2, 3]).length = 0 ↔ ([1, 2, 3] : Bytes) = []) ∧
      4 ∣ (jsonChunkOf docAssetless).length ∧ 4 ∣ (binChunkOf [1, 2, 3]).length) :=
  ⟨by decide, glb_container_layout docAssetless [1, 2, 3] outEx (by decide)⟩

end Gltf